import Mathlib

/-!
Shallow embedding of `src/lmc.py`, a Little Man Computer simulator.

The Python module keeps its machine in module-level globals
(`memory`, `pc`, `accum`, `inbox`, `outbox`, `running`); here those
globals are gathered into the record `LMCState`, and every Python
function that mutates them becomes a Lean function taking and
returning an `LMCState`.  Python integers are `Int`.  A Python call
that raises an exception is modelled by `Option`: `none` stands for
an uncaught exception (`IndexError`, `TypeError`, or
`UnboundLocalError`), `some s` for a normal return in state `s`.
-/

namespace LMC

/-- The machine state: the module-level globals of `lmc.py`.
`inbox` holds integers (the simulator is loaded with integer input
data via `load`). -/
structure LMCState where
  memory : List Int
  pc : Int
  accum : Int
  inbox : List Int
  outbox : List Int
  running : Bool
deriving DecidableEq, Repr

/-- Instruction number `HLT = 0`. -/
def HLT : Int := 0
/-- Instruction number `ADD = 1`. -/
def ADD : Int := 1
/-- Instruction number `SUB = 2`. -/
def SUB : Int := 2
/-- Instruction number `STA = 3`. -/
def STA : Int := 3
/-- Instruction number `LDA = 4`. -/
def LDA : Int := 4
/-- Instruction number `BRA = 5`. -/
def BRA : Int := 5
/-- Instruction number `BRZ = 6`. -/
def BRZ : Int := 6
/-- Instruction number `INP = 7`. -/
def INP : Int := 7
/-- Instruction number `OUT = 8`. -/
def OUT : Int := 8

/-- The Python global `list = ["HLT", "ADD", ..., "OUT"]` of mnemonics. -/
def list : List String := ["HLT", "ADD", "SUB", "STA", "LDA", "BRA", "BRZ", "INP", "OUT"]

/-- `readMem(addr)`: value at `addr` in memory, or 0 if `addr` is out of
range (`0 <= addr < len(memory)` fails).  Inside the bound check the
index is valid, so `getD _ 0` is exactly `memory[addr]`. -/
def readMem (s : LMCState) (addr : Int) : Int :=
  if 0 ≤ addr ∧ addr < (s.memory.length : Int) then s.memory.getD addr.toNat 0
  else 0

/-- `writeMem(addr, val)`: writes `val` at `addr` when
`0 <= addr < len(memory)` and `0 <= val <= 999`; otherwise does nothing. -/
def writeMem (s : LMCState) (addr val : Int) : LMCState :=
  if 0 ≤ addr ∧ addr < (s.memory.length : Int) ∧ 0 ≤ val ∧ val ≤ 999 then
    { s with memory := s.memory.set addr.toNat val }
  else s

/-- `readAccum()`: the accumulator. -/
def readAccum (s : LMCState) : Int := s.accum

/-- `writeAccum(val)`: writes `val` to the accumulator if `0 <= val <= 999`;
otherwise does nothing. -/
def writeAccum (s : LMCState) (val : Int) : LMCState :=
  if 0 ≤ val ∧ val ≤ 999 then { s with accum := val } else s

/-- `readPC()`: the program counter. -/
def readPC (s : LMCState) : Int := s.pc

/-- `writePC(val)`: writes `val` to the program counter if
`0 <= val < len(memory)`; otherwise does nothing.  (The docstring in the
source says `0 <= val <= 999`, but the code checks `val < len(memory)`.) -/
def writePC (s : LMCState) (val : Int) : LMCState :=
  if 0 ≤ val ∧ val < (s.memory.length : Int) then { s with pc := val } else s

/-- `readInbox()`: the source evaluates `inbox[0]`, so an empty inbox
raises `IndexError` (modelled `none`).  On a non-empty integer inbox the
test `inbox[0] == ''` is `False` (an `int` never equals a `str`), so the
front element is returned — and never removed: the function only reads
`inbox[0]`. -/
def readInbox (s : LMCState) : Option Int :=
  match s.inbox with
  | [] => none
  | x :: _ => some x

/-- `writeOutbox(val)`: appends `val` to the outbox. -/
def writeOutbox (s : LMCState) (val : Int) : LMCState :=
  { s with outbox := s.outbox ++ [val] }

/-- `fetch()`: reads the instruction at the program counter and
increments the program counter (through the range-checked `writePC`).
Returns the new state and the fetched instruction. -/
def fetch (s : LMCState) : LMCState × Int :=
  let pcval := readPC s
  let instr := readMem s pcval
  (writePC s (pcval + 1), instr)

/-- `decode(instr)`: `(instr // 100, instr % 100)` with Python's
floor-division and modulo semantics (`Int.fdiv` / `Int.emod`). -/
def decode (instr : Int) : Int × Int :=
  (instr.fdiv 100, instr.emod 100)

/-- `execute(opcode, operand)`: the instruction dispatch.  The branches
follow the `if`/`elif` chain of the source in order; the second
`elif opcode == OUT` branch of the source is dead code (the first `OUT`
branch already caught it) and so does not appear.  The `INP` branch of
the source is `writeAccum(readInbox)`: it passes the *function object*
`readInbox` (the call parentheses are missing), and `writeAccum` then
evaluates `0 <= val` on a function, which raises `TypeError` — modelled
as `none`.  An opcode matching no branch falls through: no state change. -/
def execute (opcode operand : Int) (s : LMCState) : Option LMCState :=
  if opcode = HLT then some { s with running := false }
  else if opcode = OUT then some (writeOutbox s (readAccum s))
  else if opcode = LDA then some (writeAccum s (readMem s operand))
  else if opcode = ADD then some (writeAccum s (readAccum s + readMem s operand))
  else if opcode = SUB then some (writeAccum s (readAccum s - readMem s operand))
  else if opcode = STA then some (writeMem s operand (readAccum s))
  else if opcode = BRA then some (writePC s operand)
  else if opcode = BRZ then some (if readAccum s = 0 then writePC s operand else s)
  else if opcode = INP then none
  else some s

/-- `step()`: one fetch–decode–execute cycle.  Note the source's `step`
does **not** consult `running`; only `run` does. -/
def step (s : LMCState) : Option LMCState :=
  let fr := fetch s
  let dec := decode fr.2
  execute dec.1 dec.2 fr.1

/-- `run()`: `while running: step()`.  The Python loop is unbounded, so
it is modelled with explicit `fuel`; `fuel = 0` stops early. -/
def run (fuel : Nat) (s : LMCState) : Option LMCState :=
  match fuel with
  | 0 => some s
  | n + 1 =>
    if s.running then
      match step s with
      | none => none
      | some s2 => run n s2
    else some s

/-- `reset()`: sets every component to its initial value.  The Python
function assigns fresh values to all six globals, so it is a constant. -/
def reset : LMCState :=
  { memory := List.replicate 100 0, pc := 0, accum := 0,
    inbox := [], outbox := [], running := true }

/-- The loop body of `load`: `for i in range(len(program)): writeMem(i,
program[i])`, rendered as structural recursion over the program with a
running address `i`. -/
def loadLoop (s : LMCState) (program : List Int) (i : Nat) : LMCState :=
  match program with
  | [] => s
  | v :: rest => loadLoop (writeMem s (i : Int) v) rest (i + 1)

/-- `load(program, indata)`: resets the computer, writes the program
into memory through `writeMem` (so out-of-range addresses or values are
silently dropped), then replaces the inbox with `indata`. -/
def load (program indata : List Int) : LMCState :=
  { loadLoop reset program 0 with inbox := indata }

/-! ### The assembler and disassembler -/

/-- A Python value that is either an `int` or a `str`: the source's
`toML` is annotated `-> int` but in fact returns a `str` on success and
the `int` −1 on failure. -/
inductive PyVal where
  | int (n : Int)
  | str (s : String)
deriving DecidableEq, Repr

/-- Python `s.find(c)`: index of the first occurrence of `c`, or −1. -/
def pyFind (s : String) (c : Char) : Int :=
  match s.toList.findIdx? (fun x => x = c) with
  | some i => (i : Int)
  | none => -1

/-- Python `s[start:]` for a non-negative start. -/
def pySliceFrom (s : String) (start : Nat) : String :=
  String.mk (s.toList.drop start)

/-- Python `s[:stop]` where `stop` may be negative: a negative stop
counts from the end (`len(s) + stop`), clamped to the string. -/
def pySliceTo (s : String) (stop : Int) : String :=
  let e : Int := if stop < 0 then (s.length : Int) + stop else stop
  String.mk (s.toList.take e.toNat)

/-- Python `s.zfill(w)`: left-pads with `'0'` to width `w`, keeping a
leading sign character in front of the padding. -/
def pyZfill (s : String) (w : Nat) : String :=
  let cs := s.toList
  if w ≤ cs.length then s
  else
    match cs with
    | c :: rest =>
      if c = '+' ∨ c = '-' then
        String.mk (c :: (List.replicate (w - cs.length) '0' ++ rest))
      else String.mk (List.replicate (w - cs.length) '0' ++ cs)
    | [] => String.mk (List.replicate w '0')

/-- `toML(asm)`: splits at the first space into a mnemonic and an
operand text (`asmMemLoc = asm[asm.find(' ')+1:]`, the mnemonic is
`asm[:asm.find(' ')]`; when there is no space, `find` returns −1, so
the "mnemonic" is the line minus its last character and the operand
text is the whole line).  A recognized mnemonic yields the **string**
`str(list.index(asm)) + asmMemLoc.zfill(2)`, `DAT` yields the string
`asmMemLoc.zfill(3)`, anything else the int −1.  (`asm` is reassigned
in the source; here the reassigned value is the local `mnem`.) -/
def toML (asm : String) : PyVal :=
  let f := pyFind asm ' '
  let asmMemLoc := pySliceFrom asm (f + 1).toNat
  let mnem := pySliceTo asm f
  if mnem ∈ list then
    PyVal.str (toString (List.indexOf mnem list) ++ pyZfill asmMemLoc 2)
  else if mnem = "DAT" then
    PyVal.str (pyZfill asmMemLoc 3)
  else PyVal.int (-1)

/-- `toAssembly(instr)`: renders `instr // 100` as a mnemonic followed
by a space and `str(instr % 100)`.  The source uses nine independent
`if instrCode == …` statements assigning `assString`; the conditions
are mutually exclusive, so this is a first-match dispatch, and when no
condition holds `assString` was never assigned and the final
`return assString` raises `UnboundLocalError` — modelled as `none`. -/
def toAssembly (instr : Int) : Option String :=
  let instrCode := instr.fdiv 100
  let memLoc := instr.emod 100
  if instrCode = HLT then some ("HLT " ++ toString memLoc)
  else if instrCode = ADD then some ("ADD " ++ toString memLoc)
  else if instrCode = SUB then some ("SUB " ++ toString memLoc)
  else if instrCode = STA then some ("STA " ++ toString memLoc)
  else if instrCode = LDA then some ("LDA " ++ toString memLoc)
  else if instrCode = BRA then some ("BRA " ++ toString memLoc)
  else if instrCode = BRZ then some ("BRZ " ++ toString memLoc)
  else if instrCode = INP then some ("INP " ++ toString memLoc)
  else if instrCode = OUT then some ("OUT " ++ toString memLoc)
  else none

/-- The round trip `toAssembly(toML(line))` as the source's types
compose: `toML` returns a `str` on success, and `toAssembly` starts
with `instr // 100`, which on a `str` raises `TypeError` (`none`). -/
def roundTrip (line : String) : Option String :=
  match toML line with
  | PyVal.int n => toAssembly n
  | PyVal.str _ => none

/-! ### Validity and operation sequences -/

/-- The machine-state range invariant: memory has its 100 cells, every
cell and the accumulator are three-digit values, and the program
counter is a two-digit address. -/
def validState (s : LMCState) : Prop :=
  s.memory.length = 100 ∧ (∀ v ∈ s.memory, 0 ≤ v ∧ v ≤ 999) ∧
  0 ≤ s.accum ∧ s.accum ≤ 999 ∧ 0 ≤ s.pc ∧ s.pc ≤ 99

instance (s : LMCState) : Decidable (validState s) := by
  unfold validState; infer_instance

/-- One call to a state-mutating function of the module. -/
inductive Op where
  | wmem (addr val : Int)
  | waccum (val : Int)
  | wpc (val : Int)
  | fetchOp
  | loadOp (program indata : List Int)
  | execOp (opcode operand : Int)
  | stepOp

/-- The state transition of one `Op` (`none` when the call raises). -/
def applyOp (s : LMCState) : Op → Option LMCState
  | .wmem a v => some (writeMem s a v)
  | .waccum v => some (writeAccum s v)
  | .wpc v => some (writePC s v)
  | .fetchOp => some (fetch s).1
  | .loadOp p d => some (load p d)
  | .execOp c o => execute c o s
  | .stepOp => step s

/-- Runs a sequence of calls, stopping at the first raised exception. -/
def applyOps (s : LMCState) : List Op → Option LMCState
  | [] => some s
  | op :: rest =>
    match applyOp s op with
    | none => none
    | some s2 => applyOps s2 rest

/-! ### Helper lemmas: accessor frame conditions -/

@[simp] theorem writeMem_pc (s : LMCState) (a v : Int) : (writeMem s a v).pc = s.pc := by
  unfold writeMem; split <;> rfl

@[simp] theorem writeMem_accum (s : LMCState) (a v : Int) : (writeMem s a v).accum = s.accum := by
  unfold writeMem; split <;> rfl

@[simp] theorem writeMem_inbox (s : LMCState) (a v : Int) : (writeMem s a v).inbox = s.inbox := by
  unfold writeMem; split <;> rfl

@[simp] theorem writeMem_outbox (s : LMCState) (a v : Int) : (writeMem s a v).outbox = s.outbox := by
  unfold writeMem; split <;> rfl

@[simp] theorem writeMem_running (s : LMCState) (a v : Int) :
    (writeMem s a v).running = s.running := by
  unfold writeMem; split <;> rfl

@[simp] theorem writeMem_length (s : LMCState) (a v : Int) :
    (writeMem s a v).memory.length = s.memory.length := by
  unfold writeMem; split
  · exact List.length_set s.memory _ _
  · rfl

@[simp] theorem writeAccum_memory (s : LMCState) (v : Int) :
    (writeAccum s v).memory = s.memory := by
  unfold writeAccum; split <;> rfl

@[simp] theorem writeAccum_pc (s : LMCState) (v : Int) : (writeAccum s v).pc = s.pc := by
  unfold writeAccum; split <;> rfl

@[simp] theorem writeAccum_inbox (s : LMCState) (v : Int) : (writeAccum s v).inbox = s.inbox := by
  unfold writeAccum; split <;> rfl

@[simp] theorem writeAccum_outbox (s : LMCState) (v : Int) : (writeAccum s v).outbox = s.outbox := by
  unfold writeAccum; split <;> rfl

@[simp] theorem writeAccum_running (s : LMCState) (v : Int) :
    (writeAccum s v).running = s.running := by
  unfold writeAccum; split <;> rfl

@[simp] theorem writePC_memory (s : LMCState) (v : Int) : (writePC s v).memory = s.memory := by
  unfold writePC; split <;> rfl

@[simp] theorem writePC_accum (s : LMCState) (v : Int) : (writePC s v).accum = s.accum := by
  unfold writePC; split <;> rfl

@[simp] theorem writePC_inbox (s : LMCState) (v : Int) : (writePC s v).inbox = s.inbox := by
  unfold writePC; split <;> rfl

@[simp] theorem writePC_outbox (s : LMCState) (v : Int) : (writePC s v).outbox = s.outbox := by
  unfold writePC; split <;> rfl

@[simp] theorem writePC_running (s : LMCState) (v : Int) : (writePC s v).running = s.running := by
  unfold writePC; split <;> rfl

/-! ### Helper lemmas: the range invariant is preserved -/

theorem validState_writeMem {s : LMCState} (h : validState s) (a v : Int) :
    validState (writeMem s a v) := by
  unfold writeMem
  split
  · rename_i hcond
    obtain ⟨h1, h2, h3, h4, h5, h6⟩ := h
    refine ⟨by simpa using h1, ?_, h3, h4, h5, h6⟩
    intro x hx
    rcases List.mem_or_eq_of_mem_set hx with hx2 | rfl
    · exact h2 x hx2
    · exact ⟨hcond.2.2.1, hcond.2.2.2⟩
  · exact h

theorem validState_writeAccum {s : LMCState} (h : validState s) (v : Int) :
    validState (writeAccum s v) := by
  unfold writeAccum
  split
  · rename_i hcond
    obtain ⟨h1, h2, h3, h4, h5, h6⟩ := h
    exact ⟨h1, h2, hcond.1, hcond.2, h5, h6⟩
  · exact h

theorem validState_writePC {s : LMCState} (h : validState s) (v : Int) :
    validState (writePC s v) := by
  unfold writePC
  split
  · rename_i hcond
    obtain ⟨h1, h2, h3, h4, h5, h6⟩ := h
    refine ⟨h1, h2, h3, h4, hcond.1, ?_⟩
    have hlt := hcond.2
    rw [h1] at hlt
    show v ≤ 99
    omega
  · exact h

theorem validState_reset : validState reset := by decide

theorem validState_loadLoop (p : List Int) :
    ∀ (s : LMCState) (i : Nat), validState s → validState (loadLoop s p i) := by
  induction p with
  | nil => intro s i h; exact h
  | cons v rest ih => intro s i h; exact ih (writeMem s (i : Int) v) (i + 1) (validState_writeMem h _ _)

theorem validState_load (p d : List Int) : validState (load p d) := by
  obtain ⟨h1, h2, h3, h4, h5, h6⟩ := validState_loadLoop p reset 0 validState_reset
  exact ⟨h1, h2, h3, h4, h5, h6⟩

theorem validState_execute {s s' : LMCState} (c o : Int) (h : validState s)
    (he : execute c o s = some s') : validState s' := by
  unfold execute at he
  split_ifs at he <;> (try cases he) <;>
    first
      | exact h
      | exact ⟨h.1, h.2.1, h.2.2.1, h.2.2.2.1, h.2.2.2.2.1, h.2.2.2.2.2⟩
      | exact validState_writeAccum h _
      | exact validState_writeMem h _ _
      | exact validState_writePC h _

theorem fetch_fst (s : LMCState) : (fetch s).1 = writePC s (s.pc + 1) := rfl

theorem validState_step {s s' : LMCState} (h : validState s) (he : step s = some s') :
    validState s' := by
  unfold step at he
  exact validState_execute _ _ (validState_writePC h (s.pc + 1)) he

theorem applyOp_validState {s s2 : LMCState} (op : Op) (h : validState s)
    (ha : applyOp s op = some s2) : validState s2 := by
  unfold applyOp at ha
  cases op with
  | wmem a v => cases ha; exact validState_writeMem h a v
  | waccum v => cases ha; exact validState_writeAccum h v
  | wpc v => cases ha; exact validState_writePC h v
  | fetchOp => cases ha; exact validState_writePC h _
  | loadOp p d => cases ha; exact validState_load p d
  | execOp c o => exact validState_execute c o h ha
  | stepOp => exact validState_step h ha

/-! ### Helper lemmas: what `load` puts in memory -/

theorem writeMem_getD {s : LMCState} (hlen : s.memory.length = 100) (i : Nat) (v : Int)
    (hv : 0 ≤ v ∧ v ≤ 999) (j : Nat) :
    (writeMem s (i : Int) v).memory.getD j 0 =
      if i = j ∧ i < 100 then v else s.memory.getD j 0 := by
  unfold writeMem
  split
  · rename_i hcond
    have hi : i < 100 := by
      have hlt := hcond.2.1
      rw [hlen] at hlt
      exact_mod_cast hlt
    simp only [List.getD_eq_getElem?_getD, Int.toNat_natCast, List.getElem?_set, hlen]
    by_cases hij : i = j
    · subst hij
      simp [hi]
    · simp [hij]
  · rename_i hcond
    have hi : ¬ i < 100 := by
      intro hlt
      exact hcond ⟨Int.natCast_nonneg i, by rw [hlen]; exact_mod_cast hlt, hv.1, hv.2⟩
    simp [hi]

theorem loadLoop_memory_getD (p : List Int) (hp : ∀ v ∈ p, 0 ≤ v ∧ v ≤ 999) :
    ∀ (s : LMCState) (i : Nat), s.memory.length = 100 →
      ∀ j : Nat, j < 100 →
        (loadLoop s p i).memory.getD j 0 =
          if i ≤ j ∧ j - i < p.length then p.getD (j - i) 0 else s.memory.getD j 0 := by
  induction p with
  | nil =>
    intro s i hlen j hj
    simp [loadLoop]
  | cons v rest ih =>
    intro s i hlen j hj
    have hv : 0 ≤ v ∧ v ≤ 999 := hp v (List.mem_cons_self v rest)
    have hrest : ∀ x ∈ rest, 0 ≤ x ∧ x ≤ 999 := fun x hx => hp x (List.mem_cons_of_mem v hx)
    rw [loadLoop]
    rw [ih hrest (writeMem s (i : Int) v) (i + 1) (by simp [hlen]) j hj]
    rw [writeMem_getD hlen i v hv j]
    simp only [List.length_cons]
    rcases Nat.lt_trichotomy j i with hlt | heq | hgt
    · have c1 : ¬ (i + 1 ≤ j ∧ j - (i + 1) < rest.length) := by omega
      have c2 : ¬ (i = j ∧ i < 100) := by omega
      have c3 : ¬ (i ≤ j ∧ j - i < rest.length + 1) := by omega
      simp [c1, c2, c3]
    · subst heq
      have c1 : ¬ (j + 1 ≤ j ∧ j - (j + 1) < rest.length) := by omega
      have c2 : j = j ∧ j < 100 := ⟨rfl, hj⟩
      have c3 : j ≤ j ∧ j - j < rest.length + 1 := by omega
      simp [c1, c2, c3]
    · have c2 : ¬ (i = j ∧ i < 100) := by omega
      by_cases c1 : j - (i + 1) < rest.length
      · have hc1 : i + 1 ≤ j ∧ j - (i + 1) < rest.length := ⟨by omega, c1⟩
        have hc3 : i ≤ j ∧ j - i < rest.length + 1 := by omega
        simp only [if_pos hc1, if_pos hc3]
        have hsub : j - i = (j - (i + 1)) + 1 := by omega
        rw [hsub, List.getD_cons_succ]
      · have hc1 : ¬ (i + 1 ≤ j ∧ j - (i + 1) < rest.length) := by tauto
        have hc3 : ¬ (i ≤ j ∧ j - i < rest.length + 1) := by omega
        simp [hc1, c2, hc3]

theorem loadLoop_fields (p : List Int) : ∀ (s : LMCState) (i : Nat),
    (loadLoop s p i).pc = s.pc ∧ (loadLoop s p i).accum = s.accum ∧
    (loadLoop s p i).inbox = s.inbox ∧ (loadLoop s p i).outbox = s.outbox ∧
    (loadLoop s p i).running = s.running ∧
    (loadLoop s p i).memory.length = s.memory.length := by
  induction p with
  | nil => intro s i; exact ⟨rfl, rfl, rfl, rfl, rfl, rfl⟩
  | cons v rest ih =>
    intro s i
    have h := ih (writeMem s (i : Int) v) (i + 1)
    rw [loadLoop]
    simpa using h

theorem reset_memory_getD (j : Nat) : reset.memory.getD j 0 = 0 := by
  unfold reset
  simp only [List.getD_eq_getElem?_getD, List.getElem?_replicate]
  split <;> rfl

theorem applyOps_validState : ∀ (l : List Op) (s t : LMCState),
    validState s → applyOps s l = some t → validState t := by
  intro l
  induction l with
  | nil =>
    intro s t hs ht
    unfold applyOps at ht
    cases ht
    exact hs
  | cons op rest ih =>
    intro s t hs ht
    unfold applyOps at ht
    cases hop : applyOp s op with
    | none => rw [hop] at ht; cases ht
    | some s2 =>
      rw [hop] at ht
      exact ih s2 t (applyOp_validState op hs hop) ht

/-! ### Helper lemmas: the `running` flag is carried through a cycle -/

theorem readAccum_run (s : LMCState) (b : Bool) :
    readAccum { s with running := b } = readAccum s := rfl

theorem readMem_run (s : LMCState) (b : Bool) (a : Int) :
    readMem { s with running := b } a = readMem s a := rfl

theorem writeOutbox_run (s : LMCState) (b : Bool) (v : Int) :
    writeOutbox { s with running := b } v = { writeOutbox s v with running := b } := rfl

theorem writeAccum_run (s : LMCState) (b : Bool) (v : Int) :
    writeAccum { s with running := b } v = { writeAccum s v with running := b } := by
  unfold writeAccum
  dsimp only
  split_ifs <;> rfl

theorem writeMem_run (s : LMCState) (b : Bool) (a v : Int) :
    writeMem { s with running := b } a v = { writeMem s a v with running := b } := by
  unfold writeMem
  dsimp only
  split_ifs <;> rfl

theorem writePC_run (s : LMCState) (b : Bool) (v : Int) :
    writePC { s with running := b } v = { writePC s v with running := b } := by
  unfold writePC
  dsimp only
  split_ifs <;> rfl

set_option maxHeartbeats 1000000 in
theorem execute_run_comm (c o : Int) (s : LMCState) (b : Bool) :
    execute c o { s with running := b } =
      (execute c o s).map (fun t => { t with running := ite (c = HLT) false b }) := by
  unfold execute
  simp only [readAccum_run, readMem_run, writeAccum_run, writeMem_run, writePC_run,
    writeOutbox_run]
  split_ifs <;> rfl

theorem step_eq (s : LMCState) :
    step s = execute ((readMem s s.pc).fdiv 100) ((readMem s s.pc).emod 100)
      (writePC s (s.pc + 1)) := rfl

/-! ### Claim theorems -/

/-- C1: the claim says executing `INP` dequeues the front of the input
queue into the accumulator (0 on an empty queue, queue untouched).  In
the source, `execute` runs `writeAccum(readInbox)` — the function
object, not a call — so `writeAccum`'s comparison `0 <= val` raises
`TypeError` on every input state; moreover `readInbox` itself only
reads `inbox[0]` (never removing it), and on an empty inbox that very
indexing raises `IndexError` instead of returning 0. -/
theorem execute_INP_raises :
    execute INP 0 { reset with inbox := [5] } = none ∧
    readInbox { reset with inbox := [5] } = some 5 ∧
    readInbox reset = none :=
  ⟨rfl, rfl, rfl⟩

/-- C2: the claim says `step()` (hence `run()`) never raises on a valid
state.  The valid state `load [700] [5]` (one in-range cell holding the
`INP` instruction, accumulator 0, program counter 0) makes `step` — and
`run` — raise a `TypeError` through the `writeAccum(readInbox)` slip. -/
theorem step_raises_on_valid_state :
    validState (load [700] [5]) ∧ step (load [700] [5]) = none ∧
    run 1 (load [700] [5]) = none := by
  refine ⟨by decide, rfl, rfl⟩

/-- C3: the claim says `toML` returns the integer `opcode * 100 +
operand` (operand defaulting to 0 when omitted).  The source builds the
result by string concatenation and returns that string (despite its
`-> int` annotation), and on a bare mnemonic the `find(' ') == -1`
slicing mangles the line, so `"HLT"` yields −1 instead of 0. -/
theorem toML_returns_formatted_text :
    toML "STA 8" = PyVal.str "308" ∧ toML "STA 8" ≠ PyVal.int 308 ∧
    toML "HLT" = PyVal.int (-1) := by
  refine ⟨rfl, by decide, rfl⟩

/-- C4: the claim says `toAssembly (toML "M n") = "M n"` for all nine
mnemonics and operands in [0,99].  Because `toML` returns the *string*
`"407"` rather than the integer 407, `toAssembly`'s first operation
`instr // 100` raises `TypeError`, so the round trip never yields a
result; the disassembler alone is fine: `toAssembly 407 = "LDA 7"`. -/
theorem roundTrip_raises :
    roundTrip "LDA 7" = none ∧ toAssembly 407 = some "LDA 7" := by
  refine ⟨rfl, by decide⟩

/-- C5: the claim says the accumulator writes of ADD, SUB, LDA **and
INP** go through the range-checked `writeAccum`, dropping out-of-range
values (SUB underflow scenario: accumulator 3, cell 5 → stays 3).  That
holds for ADD, SUB and LDA, and the SUB scenario evaluates as claimed —
but the INP branch passes the `readInbox` function object to
`writeAccum`, which raises `TypeError` instead of performing any
range-checked write. -/
theorem accum_writes_range_checked :
    (∀ (s : LMCState) (op : Int),
        execute ADD op s = some (writeAccum s (s.accum + readMem s op)) ∧
        execute SUB op s = some (writeAccum s (s.accum - readMem s op)) ∧
        execute LDA op s = some (writeAccum s (readMem s op))) ∧
    (∀ (s : LMCState) (v : Int), v < 0 ∨ 999 < v → writeAccum s v = s) ∧
    (execute SUB 4 (writeMem { reset with accum := 3 } 4 5)).map LMCState.accum = some 3 ∧
    execute INP 0 reset = none := by
  refine ⟨fun s op => ⟨rfl, rfl, rfl⟩, fun s v hv => ?_, by decide, rfl⟩
  unfold writeAccum
  rw [if_neg]
  omega

/-- C5 witness: `writeAccum` drops the out-of-range value −2. -/
theorem accum_writes_range_checked_witness :
    writeAccum reset (-2) = reset :=
  accum_writes_range_checked.2.1 reset (-2) (Or.inl (by norm_num))

/-- C6: out-of-range accesses are silently ignored: `readMem` returns 0
and `writeMem` does nothing for an address outside [0,99] (`writeMem`
also drops values outside [0,999]); `writeAccum` does nothing for a
value outside [0,999]; `writePC` does nothing for a value outside
[0,99]. -/
theorem accessors_silently_drop_out_of_range :
    (∀ (s : LMCState) (addr : Int), s.memory.length = 100 → addr < 0 ∨ 99 < addr →
        readMem s addr = 0 ∧ ∀ v : Int, writeMem s addr v = s) ∧
    (∀ (s : LMCState) (addr v : Int), v < 0 ∨ 999 < v → writeMem s addr v = s) ∧
    (∀ (s : LMCState) (v : Int), v < 0 ∨ 999 < v → writeAccum s v = s) ∧
    (∀ (s : LMCState) (v : Int), s.memory.length = 100 → v < 0 ∨ 99 < v →
        writePC s v = s) := by
  refine ⟨fun s addr hlen ha => ⟨?_, fun v => ?_⟩, fun s addr v hv => ?_,
    fun s v hv => ?_, fun s v hlen hv => ?_⟩
  · unfold readMem
    rw [hlen, if_neg]
    omega
  · unfold writeMem
    rw [hlen, if_neg]
    omega
  · unfold writeMem
    rw [if_neg]
    omega
  · unfold writeAccum
    rw [if_neg]
    omega
  · unfold writePC
    rw [hlen, if_neg]
    omega

/-- C6 witness: concrete out-of-range accesses on the reset state. -/
theorem accessors_silently_drop_out_of_range_witness :
    readMem reset 100 = 0 ∧ writeMem reset 100 7 = reset ∧ writeMem reset 3 1000 = reset ∧
    writeAccum reset (-1) = reset ∧ writePC reset 100 = reset :=
  ⟨(accessors_silently_drop_out_of_range.1 reset 100 (by decide) (Or.inr (by norm_num))).1,
   (accessors_silently_drop_out_of_range.1 reset 100 (by decide) (Or.inr (by norm_num))).2 7,
   accessors_silently_drop_out_of_range.2.1 reset 3 1000 (Or.inr (by norm_num)),
   accessors_silently_drop_out_of_range.2.2.1 reset (-1) (Or.inl (by norm_num)),
   accessors_silently_drop_out_of_range.2.2.2 reset 100 (by decide) (Or.inr (by norm_num))⟩

/-- C7: after `load p d` (program values in range), memory holds `p` in
cells `0..len p` (cells past address 99 dropped), all other cells are
0, the accumulator and program counter are 0, the outbox is empty, the
machine is running, and the inbox is exactly `d`. -/
theorem load_initializes_machine (p d : List Int) (hp : ∀ v ∈ p, 0 ≤ v ∧ v ≤ 999) :
    (load p d).accum = 0 ∧ (load p d).pc = 0 ∧ (load p d).outbox = [] ∧
    (load p d).running = true ∧ (load p d).inbox = d ∧
    (load p d).memory.length = 100 ∧
    ∀ j : Nat, j < 100 →
      (load p d).memory.getD j 0 = if j < p.length then p.getD j 0 else 0 := by
  obtain ⟨f1, f2, f3, f4, f5, f6⟩ := loadLoop_fields p reset 0
  have hmem := loadLoop_memory_getD p hp reset 0 (by decide)
  unfold load
  refine ⟨f2, f1, f4, f5, rfl, f6.trans (by decide), ?_⟩
  intro j hj
  have h := hmem j hj
  simp only [Nat.zero_le, true_and, Nat.sub_zero, reset_memory_getD] at h
  exact h

/-- C7 witness: loading a concrete three-instruction program. -/
theorem load_initializes_machine_witness :
    (load [104, 800, 0] [7]).inbox = [7] ∧ (load [104, 800, 0] [7]).pc = 0 ∧
    (load [104, 800, 0] [7]).memory.getD 1 0 = 800 :=
  ⟨(load_initializes_machine [104, 800, 0] [7] (by decide)).2.2.2.2.1,
   (load_initializes_machine [104, 800, 0] [7] (by decide)).2.1,
   by
     have h := (load_initializes_machine [104, 800, 0] [7] (by decide)).2.2.2.2.2.2 1
       (by norm_num)
     simpa using h⟩

/-- C8 counterexample: on the halted reset state, `step()` is not a
no-op — it advances the program counter to 1 (the fetch runs
unconditionally, and the fetched `HLT 0` is executed). -/
theorem step_when_halted_changes_state :
    step { reset with running := false } = some { reset with pc := 1, running := false } ∧
    ¬ step { reset with running := false } = some { reset with running := false } := by
  exact ⟨by decide, by decide⟩

/-- C8 amended: `step()` never consults the halt flag: on a halted
state it performs the same full fetch–decode–execute cycle as on the
running state, with the flag simply staying false; only `run()` checks
the flag before stepping. -/
theorem step_ignores_halt_flag (s : LMCState) :
    step { s with running := false } =
      (step { s with running := true }).map (fun t => { t with running := false }) := by
  have h1 := step_eq { s with running := false }
  have h2 := step_eq { s with running := true }
  dsimp only at h1 h2
  rw [readMem_run, writePC_run, execute_run_comm] at h1
  rw [readMem_run, writePC_run, execute_run_comm] at h2
  simp only [ite_self] at h1
  rw [h1, h2, Option.map_map]
  cases execute ((readMem s s.pc).fdiv 100) ((readMem s s.pc).emod 100)
      (writePC s (s.pc + 1)) with
  | none => rfl
  | some t => rfl

/-- C9: `execute` with an opcode outside 0–8 matches none of the
dispatch branches and falls through, leaving the state unchanged. -/
theorem execute_unknown_opcode_noop (opcode operand : Int) (s : LMCState)
    (h : opcode < 0 ∨ 8 < opcode) : execute opcode operand s = some s := by
  unfold execute HLT OUT LDA ADD SUB STA BRA BRZ INP
  split_ifs <;> first | rfl | omega

/-- C9 witness: opcode 9 is a no-op on the reset state. -/
theorem execute_unknown_opcode_noop_witness : execute 9 0 reset = some reset :=
  execute_unknown_opcode_noop 9 0 reset (Or.inr (by norm_num))

/-- C10: starting from the reset state, any sequence of `writeMem`,
`writeAccum`, `writePC`, `fetch`, `load`, `execute` and `step` calls
that return normally keeps every memory cell and the accumulator in
[0,999] and the program counter in [0,99]. -/
theorem state_ranges_invariant (ops : List Op) (s' : LMCState)
    (h : applyOps reset ops = some s') : validState s' :=
  applyOps_validState ops reset s' validState_reset h

/-- C10 witness: a concrete load-then-write sequence ends in range. -/
theorem state_ranges_invariant_witness :
    validState (writeAccum (load [104, 800] []) 42) :=
  state_ranges_invariant [Op.loadOp [104, 800] [], Op.waccum 42] _ (by decide)

end LMC
